import Mathlib

/-!
# mongodb-controller: the reconciliation step and its retry policy

A shallow embedding of `src/mongodb-controller/main.go` (`process`, `handleErr`,
`processNext`, `runWorker`, `unavailableNodeCount`, `podIsRebooting`) and of
`src/common/util.go` (`CopyObjToNode`).

Conventions of the embedding.

* Go pointers are addresses into an explicit `Heap`; pod objects and
  `map[string]string` objects live in separate stores, so that writing through a
  map reference is visible through every pod that shares the map.
* A Go result pair `(T, error)` is an `Except GoError T`; a Go `error` is an
  `Option GoError` (`none` is `nil`).
* A run-time panic (index out of range, nil dereference) is the outcome
  `Outcome.panicked`.
* Calls on the collaborators of the controller (pod lister, budget tracker,
  API client, work queue) are recorded in call traces; the answers of the
  collaborators are parameters.
* `glog` calls only write log lines and are left out.
-/

namespace MongodbController

/-! ## Values -/

/-- Go `error` values met by the controller: either produced by a collaborator, or
built by one of the `fmt.Errorf` calls of `process` (one constructor per call
site, carrying the formatted arguments). -/
inductive GoError where
  | external (msg : String)
  | couldntSplit (key : String)
  | failedToRetrieve (podName : String) (err : GoError)
  | failedCount (err : GoError)
  | tooManyUnavailable (unavailable max : Int) (podName : String)
  | failedCopy (err : GoError)
  | failedToSet (key : String) (err : GoError)
  deriving DecidableEq, Repr

/-- Result of running a Go function body: it returns a value or panics. -/
inductive Outcome (α : Type) where
  | returned (a : α)
  | panicked
  deriving DecidableEq, Repr

/-- The constant `maxUnavailable = 1` (main.go, line 25). -/
def maxUnavailable : Int := 1

/-- The annotation keys of package `common`. Their declarations are not part of
the sources at hand, so the three constants are parameters of the development. -/
structure Keys where
  RebootNeededAnnotation : String
  RebootAnnotation : String
  RebootInProgressAnnotation : String
  deriving DecidableEq, Repr

/-! ## Maps, pods and the heap -/

/-- Contents of a `map[string]string` object: an association list without
duplicate keys as long as it is only changed through `GoMap.set`. -/
abbrev GoMap := List (String × String)

/-- The lookup `v, ok := m[k]`: `none` when `ok` is false. -/
def GoMap.get : GoMap → String → Option String
  | [], _ => none
  | (k', v) :: rest, k => if k' = k then some v else GoMap.get rest k

/-- Remove the entry of key `k`, if any. -/
def GoMap.erase : GoMap → String → GoMap
  | [], _ => []
  | (k', v) :: rest, k =>
    if k' = k then GoMap.erase rest k else (k', v) :: GoMap.erase rest k

/-- The assignment `m[k] = v`. -/
def GoMap.set (m : GoMap) (k v : String) : GoMap :=
  (k, v) :: m.erase k

/-- The part of a `v1.Pod` the controller reads or writes: the name, the
namespace and the annotation map of its `ObjectMeta`. `Annotations` is `none`
for a nil map and otherwise the address of a map object. -/
structure Pod where
  Name : String
  Namespace : String
  Annotations : Option Nat
  deriving DecidableEq, Repr

/-- A pod as it travels to the API server: the annotation map by value. -/
structure PodObject where
  Name : String
  Namespace : String
  Annotations : Option GoMap
  deriving DecidableEq, Repr

/-- The store: pod objects and map objects, addressed by position. -/
structure Heap where
  pods : List Pod
  maps : List GoMap
  deriving DecidableEq, Repr

/-- Serialise the pod at address `p`: `none` when an address dangles. -/
def Heap.object (h : Heap) (p : Nat) : Option PodObject :=
  match h.pods[p]? with
  | none => none
  | some pod =>
    match pod.Annotations with
    | none => some ⟨pod.Name, pod.Namespace, none⟩
    | some m =>
      match h.maps[m]? with
      | none => none
      | some contents => some ⟨pod.Name, pod.Namespace, some contents⟩

/-! ## Collaborators -/

/-- Calls made on the collaborators of `process`. -/
inductive Event where
  | Get (ns name : String)
  | unavailableNodeCount
  | Update (ns : String) (obj : PodObject)
  deriving DecidableEq, Repr

/-- The fields of `mongodbController` used by `process`, as answers of the
collaborators: `podLister ns name` is `c.podLister.Pods(ns).Get(name)` (the
address of the cached pod, or an error), `Update ns obj` is the error returned by
`c.client.Core().Pods(ns).Update(obj)`, and `schemeCopy obj` is the error
returned by `api.Scheme.Copy` for the object (`none`: the copy is made). -/
structure mongodbController where
  podLister : String → String → Except GoError Nat
  Update : String → PodObject → Option GoError
  schemeCopy : PodObject → Option GoError

/-! ## strings.Split -/

/-- The pieces of a character list between occurrences of `sep`; there is always
at least one piece. -/
def splitChars (sep : Char) : List Char → List (List Char)
  | [] => [[]]
  | c :: cs =>
    if c = sep then [] :: splitChars sep cs
    else
      match splitChars sep cs with
      | [] => [[c]]
      | piece :: pieces => (c :: piece) :: pieces

/-- Go `strings.Split(s, sep)` for a separator of one ASCII character, the only
use in the sources (`strings.Split(key, "/")`). -/
def Split (s : String) (sep : Char) : List String :=
  (splitChars sep s.data).map String.mk

/-! ## common.CopyObjToNode -/

/-- The library call `api.Scheme.Copy(obj)`: when it does not fail it allocates a
deep copy, that is a fresh pod object and, unless the annotation map is nil, a
fresh map object with the same contents. `none` stands for the panic on a
dangling address. -/
def SchemeCopy (c : mongodbController) (h : Heap) (obj : Nat) :
    Option (Except GoError Nat × Heap) :=
  match h.pods[obj]?, h.object obj with
  | some pod, some o =>
    match c.schemeCopy o with
    | some err => some (.error err, h)
    | none =>
      match o.Annotations with
      | none => some (.ok h.pods.length, { h with pods := h.pods ++ [pod] })
      | some contents =>
        some (.ok h.pods.length,
          { pods := h.pods ++ [{ pod with Annotations := some h.maps.length }],
            maps := h.maps ++ [contents] })
  | _, _ => none

/-- Embedding of `CopyObjToNode` (util.go, lines 17-28): copy the object, and give
the copy an empty map when its annotation map is nil. -/
def CopyObjToNode (c : mongodbController) (h : Heap) (obj : Nat) :
    Outcome (Except GoError Nat) × Heap :=
  match SchemeCopy c h obj with
  | none => (.panicked, h)
  | some (.error err, h1) => (.returned (.error err), h1)
  | some (.ok objCopy, h1) =>
    match h1.pods[objCopy]? with
    | none => (.panicked, h1)
    | some pod =>
      match pod.Annotations with
      | none =>
        (.returned (.ok objCopy),
          { pods := h1.pods.set objCopy { pod with Annotations := some h1.maps.length },
            maps := h1.maps ++ [[]] })
      | some _ => (.returned (.ok objCopy), h1)

/-! ## The reconciliation step -/

/-- What a run of `process` leaves behind: its outcome, the heap, and the calls it
made on its collaborators, in order. -/
structure Run where
  out : Outcome (Option GoError)
  heap : Heap
  trace : List Event
  deriving DecidableEq, Repr

/-- Embedding of `unavailableNodeCount` (main.go, lines 231-250): the fleet scan
is commented out and the body returns `10, nil`. -/
def unavailableNodeCount (_c : mongodbController) : Except GoError Int :=
  .ok 10

/-- Embedding of the body of `process` (main.go, lines 163-206), with the answer of
the call `c.unavailableNodeCount()` passed in as `count`. -/
def processWith (count : Except GoError Int) (k : Keys) (c : mongodbController)
    (h : Heap) (key : String) : Run :=
  let result := Split key '/'
  if result.length = 0 then
    ⟨.returned (some (.couldntSplit key)), h, []⟩
  else
    match result[1]? with
    | none => ⟨.panicked, h, []⟩
    | some podName =>
      match c.podLister "default" podName with
      | .error err =>
        ⟨.returned (some (.failedToRetrieve podName err)), h, [.Get "default" podName]⟩
      | .ok p =>
        match h.pods[p]? with
        | none => ⟨.panicked, h, [.Get "default" podName]⟩
        | some pod =>
          match pod.Annotations with
          | none => ⟨.returned none, h, [.Get "default" podName]⟩
          | some m =>
            match h.maps[m]? with
            | none => ⟨.panicked, h, [.Get "default" podName]⟩
            | some annotations =>
              if (annotations.get k.RebootNeededAnnotation).isNone then
                ⟨.returned none, h, [.Get "default" podName]⟩
              else
                match count with
                | .error err =>
                  ⟨.returned (some (.failedCount err)), h,
                    [.Get "default" podName, .unavailableNodeCount]⟩
                | .ok unavailable =>
                  if unavailable ≥ maxUnavailable then
                    ⟨.returned (some (.tooManyUnavailable unavailable maxUnavailable pod.Name)),
                      h, [.Get "default" podName, .unavailableNodeCount]⟩
                  else
                    match CopyObjToNode c h p with
                    | (.panicked, h1) =>
                      ⟨.panicked, h1, [.Get "default" podName, .unavailableNodeCount]⟩
                    | (.returned (.error err), h1) =>
                      ⟨.returned (some (.failedCopy err)), h1,
                        [.Get "default" podName, .unavailableNodeCount]⟩
                    | (.returned (.ok podCopy), h1) =>
                      match h1.pods[podCopy]? with
                      | none =>
                        ⟨.panicked, h1, [.Get "default" podName, .unavailableNodeCount]⟩
                      | some cp =>
                        match cp.Annotations with
                        | none =>
                          ⟨.panicked, h1, [.Get "default" podName, .unavailableNodeCount]⟩
                        | some cm =>
                          match h1.maps[cm]? with
                          | none =>
                            ⟨.panicked, h1, [.Get "default" podName, .unavailableNodeCount]⟩
                          | some contents =>
                            let h2 : Heap :=
                              { h1 with maps := h1.maps.set cm (contents.set k.RebootAnnotation "") }
                            match h2.object podCopy with
                            | none =>
                              ⟨.panicked, h2, [.Get "default" podName, .unavailableNodeCount]⟩
                            | some obj =>
                              match c.Update "default" obj with
                              | some err =>
                                ⟨.returned (some (.failedToSet k.RebootAnnotation err)), h2,
                                  [.Get "default" podName, .unavailableNodeCount,
                                    .Update "default" obj]⟩
                              | none =>
                                ⟨.returned none, h2,
                                  [.Get "default" podName, .unavailableNodeCount,
                                    .Update "default" obj]⟩

/-- The method `process` as the program runs it: the count comes from the
program's own `unavailableNodeCount`. -/
def process (k : Keys) (c : mongodbController) (h : Heap) (key : String) : Run :=
  processWith (unavailableNodeCount c) k c h key

/-- Embedding of `podIsRebooting` (main.go, lines 252-263), on the pod at address
`p`; `none` when an address dangles. -/
def podIsRebooting (k : Keys) (h : Heap) (p : Nat) : Option Bool :=
  match h.object p with
  | none => none
  | some o =>
    match o.Annotations with
    | none => some false
    | some annotations =>
      if (annotations.get k.RebootInProgressAnnotation).isSome then some true
      else some (annotations.get k.RebootAnnotation).isSome

/-! ## The work queue and the retry policy -/

/-- Calls made on the work queue. -/
inductive QueueCall where
  | Forget (key : String)
  | NumRequeues (key : String)
  | AddRateLimited (key : String)
  | Done (key : String)
  deriving DecidableEq, Repr

/-- The methods of `workqueue.RateLimitingInterface` the worker calls after it
took a key, over an arbitrary queue state `σ`. -/
structure RateLimitingInterface (σ : Type) where
  Forget : σ → String → σ
  NumRequeues : σ → String → Int
  AddRateLimited : σ → String → σ
  Done : σ → String → σ

/-- Embedding of `handleErr` (main.go, lines 208-229): the queue state after the
call, and the queue calls made, in order. -/
def handleErr {σ : Type} (q : RateLimitingInterface σ) (s : σ) (err : Option GoError)
    (key : String) : σ × List QueueCall :=
  match err with
  | none => (q.Forget s key, [.Forget key])
  | some _ =>
    if q.NumRequeues s key < 5 then
      (q.AddRateLimited s key, [.NumRequeues key, .AddRateLimited key])
    else
      (q.Forget s key, [.NumRequeues key, .Forget key])

/-- Everything a worker acts on: the heap, the calls made so far on the
collaborators of `process`, the queue state and the calls made so far on the
queue. -/
structure World (σ : Type) where
  heap : Heap
  trace : List Event
  queue : σ
  calls : List QueueCall

/-- Embedding of `processNext` (main.go, lines 146-161). `got` is the answer of
`c.queue.Get()`, a key and the quit flag. The deferred `Done` also runs when
`process` panics, and the panic then goes on to the caller. -/
def processNextWith {σ : Type} (count : Except GoError Int) (k : Keys)
    (c : mongodbController) (q : RateLimitingInterface σ) (w : World σ)
    (got : String × Bool) : Outcome Bool × World σ :=
  if got.2 then (.returned false, w)
  else
    let r := processWith count k c w.heap got.1
    match r.out with
    | .panicked =>
      (.panicked,
        { heap := r.heap, trace := w.trace ++ r.trace,
          queue := q.Done w.queue got.1, calls := w.calls ++ [.Done got.1] })
    | .returned err =>
      let hs := handleErr q w.queue err got.1
      (.returned true,
        { heap := r.heap, trace := w.trace ++ r.trace,
          queue := q.Done hs.1 got.1, calls := w.calls ++ hs.2 ++ [.Done got.1] })

/-- The method `processNext` as the program runs it. -/
def processNext {σ : Type} (k : Keys) (c : mongodbController)
    (q : RateLimitingInterface σ) (w : World σ) (got : String × Bool) :
    Outcome Bool × World σ :=
  processNextWith (unavailableNodeCount c) k c q w got

/-- How a worker loop ends on a finite stream of `Get` answers. -/
inductive WorkerStatus where
  | stopped
  | waiting
  | crashed
  deriving DecidableEq, Repr

/-- Embedding of `runWorker` (main.go, lines 141-144), `for c.processNext() {}`,
over the successive answers of `c.queue.Get()`: the loop ends when `processNext`
returns false (`stopped`) or panics (`crashed`), and blocks in `Get` when the
answers are used up (`waiting`). -/
def runWorkerWith {σ : Type} (count : Except GoError Int) (k : Keys)
    (c : mongodbController) (q : RateLimitingInterface σ) :
    World σ → List (String × Bool) → WorkerStatus × World σ
  | w, [] => (.waiting, w)
  | w, got :: rest =>
    match processNextWith count k c q w got with
    | (.panicked, w1) => (.crashed, w1)
    | (.returned false, w1) => (.stopped, w1)
    | (.returned true, w1) => runWorkerWith count k c q w1 rest

/-- The method `runWorker` as the program runs it. -/
def runWorker {σ : Type} (k : Keys) (c : mongodbController)
    (q : RateLimitingInterface σ) (w : World σ) (gets : List (String × Bool)) :
    WorkerStatus × World σ :=
  runWorkerWith (unavailableNodeCount c) k c q w gets

/-- The retry record of the work queue (a library type) as a counter per key, the
model the retry-exhaustion property is stated for: `AddRateLimited` adds one to
the counter of the key, `Forget` puts it back to zero, `NumRequeues` reads it and
`Done` leaves it alone. -/
def counterQueue : RateLimitingInterface (String → Int) where
  Forget := fun s key => fun x => if x = key then 0 else s x
  NumRequeues := fun s key => s key
  AddRateLimited := fun s key => fun x => if x = key then s x + 1 else s x
  Done := fun s _ => s

/-! ## Concrete inputs used by the closed statements -/

/-- The annotation keys as the specification names them. -/
def specKeys : Keys :=
  ⟨"needs-maintenance", "maintenance-approved", "maintenance-in-progress"⟩

/-- A cache with the single pod `C` at address 0; every other lookup is answered
with a not-found error. The API server and the copier accept everything. -/
def cacheOfC : mongodbController where
  podLister := fun _ name =>
    if name = "C" then .ok 0 else .error (.external "pod not found")
  Update := fun _ _ => none
  schemeCopy := fun _ => none

/-- An empty cache: every lookup is answered with a not-found error. -/
def emptyCache : mongodbController where
  podLister := fun _ _ => .error (.external "pod not found")
  Update := fun _ _ => none
  schemeCopy := fun _ => none

/-- Heap in which pod `C` carries the needs-maintenance annotation only. -/
def heapNeeds : Heap :=
  ⟨[⟨"C", "default", some 0⟩], [[("needs-maintenance", "")]]⟩

/-- Heap in which pod `C` carries both the needs-maintenance and the
maintenance-approved annotation. -/
def heapApproved : Heap :=
  ⟨[⟨"C", "default", some 0⟩], [[("maintenance-approved", ""), ("needs-maintenance", "")]]⟩

/-- Heap in which pod `C` has a nil annotation map. -/
def heapNil : Heap :=
  ⟨[⟨"C", "default", none⟩], []⟩

/-- A world in which pod `C` carries needs-maintenance only, no call is made yet
and every retry counter is at 0. -/
def worldNeeds : World (String → Int) :=
  ⟨heapNeeds, [], fun _ => 0, []⟩

/-- A cache with the single pod `C` at address 0 in front of an API server that
answers every `Update` with an error. -/
def cacheOfCRefusingUpdate : mongodbController where
  podLister := fun _ name =>
    if name = "C" then .ok 0 else .error (.external "pod not found")
  Update := fun _ _ => some (.external "conflict")
  schemeCopy := fun _ => none

/-! ## Auxiliary definitions for the statements -/

/-- The heap on which attempt number `i` (counted from 0) on `key` starts, when the
first attempt starts on `h`: every attempt starts on the heap the attempt before
it left behind. -/
def heapAtAttempt (count : Except GoError Int) (k : Keys) (c : mongodbController)
    (key : String) : Heap → Nat → Heap
  | h, 0 => h
  | h, i + 1 => heapAtAttempt count k c key (processWith count k c h key).heap i

/-- The queue calls of `j` failed attempts that were each answered with a re-add. -/
def retryCalls (key : String) : Nat → List QueueCall
  | 0 => []
  | j + 1 => [.NumRequeues key, .AddRateLimited key, .Done key] ++ retryCalls key j

/-- The heap after the approval of the pod at `p`: the copy of the pod sits at the
first free pod address, its map, with the approval key set, at the first free map
address. -/
def approvedHeap (k : Keys) (h : Heap) (pod : Pod) (annotations : GoMap) : Heap :=
  { pods := h.pods ++ [{ pod with Annotations := some h.maps.length }],
    maps := h.maps ++ [annotations.set k.RebootAnnotation ""] }

/-! ## Lemmas on `Split` -/

theorem splitChars_ne_nil (sep : Char) (l : List Char) : splitChars sep l ≠ [] := by
  induction l with
  | nil => simp [splitChars]
  | cons c cs ih =>
    unfold splitChars
    split
    · simp
    · split <;> simp

theorem splitChars_of_not_mem (sep : Char) (l : List Char) (hl : sep ∉ l) :
    splitChars sep l = [l] := by
  induction l with
  | nil => simp [splitChars]
  | cons c cs ih =>
    have hc : c ≠ sep := fun e => hl (by simp [e])
    have hcs : sep ∉ cs := fun e => hl (by simp [e])
    simp [splitChars, hc, ih hcs]

theorem splitChars_append (sep : Char) (a rest : List Char) (ha : sep ∉ a) :
    splitChars sep (a ++ sep :: rest) = a :: splitChars sep rest := by
  induction a with
  | nil => simp [splitChars]
  | cons c cs ih =>
    have hc : c ≠ sep := fun e => ha (by simp [e])
    have hcs : sep ∉ cs := fun e => ha (by simp [e])
    simp [splitChars, hc, ih hcs]

theorem Split_length_ne_zero (s : String) (sep : Char) : (Split s sep).length ≠ 0 := by
  have := splitChars_ne_nil sep s.data
  simp [Split, this]

theorem Split_ne_nil (s : String) (sep : Char) : Split s sep ≠ [] := by
  have := splitChars_ne_nil sep s.data
  simp [Split, this]

theorem Split_of_not_mem (s : String) (sep : Char) (hs : sep ∉ s.data) :
    Split s sep = [s] := by
  simp [Split, splitChars_of_not_mem sep s.data hs]

/-- The second piece of `a/n`, `a/n/...`: the text between the first and the second
separator. -/
theorem Split_second (sep : Char) (a n rest : List Char) (ha : sep ∉ a) (hn : sep ∉ n)
    (hrest : rest = [] ∨ ∃ r, rest = sep :: r) :
    (Split (String.mk (a ++ sep :: (n ++ rest))) sep)[1]? = some (String.mk n) := by
  rcases hrest with rfl | ⟨r, rfl⟩
  · simp [Split, splitChars_append sep a _ ha, splitChars_of_not_mem sep n hn]
  · simp [Split, splitChars_append sep a _ ha, splitChars_append sep n _ hn]

/-! ## Lemmas on maps -/

theorem GoMap.get_erase_ne (m : GoMap) (k x : String) (hx : x ≠ k) :
    GoMap.get (m.erase k) x = GoMap.get m x := by
  induction m with
  | nil => rfl
  | cons e rest ih =>
    obtain ⟨k', v⟩ := e
    by_cases hk : k' = k
    · have hne : k ≠ x := fun e => hx e.symm
      simp [GoMap.erase, hk, GoMap.get, ih, hne]
    · simp [GoMap.erase, hk, GoMap.get, ih]

theorem GoMap.get_set (m : GoMap) (k v x : String) :
    GoMap.get (m.set k v) x = if x = k then some v else GoMap.get m x := by
  by_cases hx : x = k
  · simp [GoMap.set, GoMap.get, hx]
  · have hk : k ≠ x := fun e => hx e.symm
    simp [GoMap.set, GoMap.get, hx, hk, GoMap.get_erase_ne m k x hx]

/-! ## The reconciliation step: refusal, no-op and lookup failures -/

/-- C1 (budget refusal). For every cached pod that carries the needs-maintenance
annotation and every count `u ≥ maxUnavailable` returned by `unavailableNodeCount`,
`process` returns the non-nil "too many unavailable" error, makes no `Update` call
and leaves the heap as it was. -/
theorem process_budget_refusal (k : Keys) (c : mongodbController) (h : Heap)
    (key podName : String) (p m : Nat) (pod : Pod) (annotations : GoMap) (v : String)
    (u : Int)
    (hkey : (Split key '/')[1]? = some podName)
    (hget : c.podLister "default" podName = .ok p)
    (hpod : h.pods[p]? = some pod)
    (hann : pod.Annotations = some m)
    (hmap : h.maps[m]? = some annotations)
    (hneeded : annotations.get k.RebootNeededAnnotation = some v)
    (hu : u ≥ maxUnavailable) :
    (processWith (.ok u) k c h key).out
        = .returned (some (.tooManyUnavailable u maxUnavailable pod.Name))
      ∧ (∀ ns obj, Event.Update ns obj ∉ (processWith (.ok u) k c h key).trace)
      ∧ (processWith (.ok u) k c h key).heap = h := by
  have hrun : processWith (.ok u) k c h key
      = ⟨.returned (some (.tooManyUnavailable u maxUnavailable pod.Name)), h,
          [.Get "default" podName, .unavailableNodeCount]⟩ := by
    simp [processWith, Split_ne_nil, hkey, hget, hpod, hann, hmap, hneeded, hu]
  rw [hrun]
  simp

/-- Witness of C1: pod `C` needs maintenance and one unit is already unavailable. -/
theorem process_budget_refusal_witness :
    (processWith (.ok 1) specKeys cacheOfC heapNeeds "default/C").out
        = .returned (some (.tooManyUnavailable 1 maxUnavailable "C"))
      ∧ (∀ ns obj, Event.Update ns obj
          ∉ (processWith (.ok 1) specKeys cacheOfC heapNeeds "default/C").trace)
      ∧ (processWith (.ok 1) specKeys cacheOfC heapNeeds "default/C").heap = heapNeeds :=
  process_budget_refusal specKeys cacheOfC heapNeeds "default/C" "C" 0 0
    ⟨"C", "default", some 0⟩ [("needs-maintenance", "")] "" 1
    (by decide) rfl (by decide) rfl (by decide) (by decide) (by decide)

/-- C2 (approval when the budget is free), the code at the failing input. The
cache holds the single pod `C`, which carries needs-maintenance, and no pod is
unavailable; `process`, with the program's own `unavailableNodeCount`, returns
the "too many unavailable (10/1)" error and makes no `Update` call. More, with the
count fixed at 10 no run of `process` whatsoever makes an `Update` call. -/
theorem process_single_unit_not_approved :
    process specKeys cacheOfC heapNeeds "default/C"
        = ⟨.returned (some (.tooManyUnavailable 10 1 "C")), heapNeeds,
            [.Get "default" "C", .unavailableNodeCount]⟩
      ∧ ∀ (k : Keys) (c : mongodbController) (h : Heap) (key ns : String)
          (obj : PodObject), Event.Update ns obj ∉ (process k c h key).trace := by
  refine ⟨by decide, ?_⟩
  intro k c h key ns obj
  have hten : (10 : Int) ≥ maxUnavailable := by decide
  simp only [process, processWith, unavailableNodeCount, hten, if_true]
  repeat' split
  all_goals simp

/-- C3 (deletion tolerance), as the code has it. For every key `ns/name` whose
pod the lister does not find, `process` returns the non-nil "failed to retrieve"
error that wraps the error of the lister; it makes no `Update` call, does not ask
for the unavailable count and leaves the heap as it was. -/
theorem process_not_found (count : Except GoError Int) (k : Keys) (c : mongodbController)
    (h : Heap) (ns name : List Char) (e : GoError)
    (hns : '/' ∉ ns) (hname : '/' ∉ name)
    (hget : c.podLister "default" (String.mk name) = .error e) :
    (processWith count k c h (String.mk (ns ++ '/' :: name))).out
        = .returned (some (.failedToRetrieve (String.mk name) e))
      ∧ (processWith count k c h (String.mk (ns ++ '/' :: name))).trace
        = [.Get "default" (String.mk name)]
      ∧ (∀ x obj, Event.Update x obj
          ∉ (processWith count k c h (String.mk (ns ++ '/' :: name))).trace)
      ∧ (processWith count k c h (String.mk (ns ++ '/' :: name))).heap = h := by
  have hkey : (Split (String.mk (ns ++ '/' :: name)) '/')[1]? = some (String.mk name) := by
    have := Split_second '/' ns name [] hns hname (Or.inl rfl)
    simpa using this
  have hrun : processWith count k c h (String.mk (ns ++ '/' :: name))
      = ⟨.returned (some (.failedToRetrieve (String.mk name) e)), h,
          [.Get "default" (String.mk name)]⟩ := by
    simp [processWith, Split_ne_nil, hkey, hget]
  rw [hrun]
  simp

/-- Witness of C3 as amended: the key `default/foo` on an empty cache. -/
theorem process_not_found_witness :
    (processWith (.ok 0) specKeys emptyCache ⟨[], []⟩ "default/foo").out
        = .returned (some (.failedToRetrieve "foo" (.external "pod not found")))
      ∧ (processWith (.ok 0) specKeys emptyCache ⟨[], []⟩ "default/foo").trace
        = [.Get "default" "foo"]
      ∧ (∀ x obj, Event.Update x obj
          ∉ (processWith (.ok 0) specKeys emptyCache ⟨[], []⟩ "default/foo").trace)
      ∧ (processWith (.ok 0) specKeys emptyCache ⟨[], []⟩ "default/foo").heap = ⟨[], []⟩ :=
  process_not_found (.ok 0) specKeys emptyCache ⟨[], []⟩ "default".data "foo".data
    (.external "pod not found") (by decide) (by decide) rfl

/-- Counterexample to C3 as stated: on an empty cache, `process "default/foo"` does
not return nil. -/
theorem process_not_found_is_error :
    (process specKeys emptyCache ⟨[], []⟩ "default/foo").out
        = .returned (some (.failedToRetrieve "foo" (.external "pod not found")))
      ∧ (process specKeys emptyCache ⟨[], []⟩ "default/foo").out ≠ .returned none := by
  decide

/-- C5 (no-op when maintenance is not requested). For every cached pod whose
annotation map is nil, or is a map without the needs-maintenance key, and for
every answer `count` of the budget tracker, `process` returns nil, its only call
is the lookup of the pod (no `Update`, no `unavailableNodeCount`) and the heap is
as it was: the run on a nil map is the run on an empty map. -/
theorem process_noop_without_request (count : Except GoError Int) (k : Keys)
    (c : mongodbController) (h : Heap) (key podName : String) (p : Nat) (pod : Pod)
    (hkey : (Split key '/')[1]? = some podName)
    (hget : c.podLister "default" podName = .ok p)
    (hpod : h.pods[p]? = some pod)
    (hnot : pod.Annotations = none
      ∨ ∃ m annotations, pod.Annotations = some m ∧ h.maps[m]? = some annotations
          ∧ annotations.get k.RebootNeededAnnotation = none) :
    processWith count k c h key = ⟨.returned none, h, [.Get "default" podName]⟩
      ∧ (∀ ns obj, Event.Update ns obj ∉ (processWith count k c h key).trace)
      ∧ Event.unavailableNodeCount ∉ (processWith count k c h key).trace := by
  have hrun : processWith count k c h key
      = ⟨.returned none, h, [.Get "default" podName]⟩ := by
    rcases hnot with hnil | ⟨m, annotations, hann, hmap, hnone⟩
    · simp [processWith, Split_ne_nil, hkey, hget, hpod, hnil]
    · simp [processWith, Split_ne_nil, hkey, hget, hpod, hann, hmap, hnone]
  rw [hrun]
  simp

/-- Witness of C5: pod `C` with a nil annotation map, with a budget that would
allow the approval. -/
theorem process_noop_without_request_witness :
    processWith (.ok 0) specKeys cacheOfC heapNil "default/C"
        = ⟨.returned none, heapNil, [.Get "default" "C"]⟩
      ∧ (∀ ns obj, Event.Update ns obj
          ∉ (processWith (.ok 0) specKeys cacheOfC heapNil "default/C").trace)
      ∧ Event.unavailableNodeCount
          ∉ (processWith (.ok 0) specKeys cacheOfC heapNil "default/C").trace :=
  process_noop_without_request (.ok 0) specKeys cacheOfC heapNil "default/C" "C" 0
    ⟨"C", "default", none⟩ (by decide) rfl (by decide) (Or.inl rfl)

/-! ## Keys without a separator -/

/-- C4 (malformed key), what the code does. For every key without a `/`,
`strings.Split` yields the one piece `key`, the guard `len(result) == 0` does not
fire and `result[1]` is out of range: `process` panics before any call on a
collaborator. In `processNext` the panic skips `handleErr`; only the deferred
`Done` reaches the queue, and the worker loop ends crashed. -/
theorem process_key_without_separator_panics {σ : Type} (count : Except GoError Int)
    (k : Keys) (c : mongodbController) (q : RateLimitingInterface σ) (w : World σ)
    (key : String) (rest : List (String × Bool)) (hkey : '/' ∉ key.data) :
    Split key '/' = [key]
      ∧ processWith count k c w.heap key = ⟨.panicked, w.heap, []⟩
      ∧ (processNextWith count k c q w (key, false)).1 = .panicked
      ∧ (processNextWith count k c q w (key, false)).2.calls = w.calls ++ [.Done key]
      ∧ (runWorkerWith count k c q w ((key, false) :: rest)).1 = .crashed := by
  have hsplit : Split key '/' = [key] := Split_of_not_mem key '/' hkey
  have hrun : processWith count k c w.heap key = ⟨.panicked, w.heap, []⟩ := by
    simp [processWith, hsplit]
  refine ⟨hsplit, hrun, ?_, ?_, ?_⟩
  · simp [processNextWith, hrun]
  · simp [processNextWith, hrun]
  · simp [runWorkerWith, processNextWith, hrun]

/-- Witness of C4: the key `not-a-valid-key`, delivered to a worker of the program
as it stands, on a queue with retry counters. -/
theorem process_key_without_separator_panics_witness :
    Split "not-a-valid-key" '/' = ["not-a-valid-key"]
      ∧ processWith (.ok 10) specKeys cacheOfC heapNeeds "not-a-valid-key"
          = ⟨.panicked, heapNeeds, []⟩
      ∧ (processNextWith (.ok 10) specKeys cacheOfC counterQueue
            ⟨heapNeeds, [], fun _ => 0, []⟩ ("not-a-valid-key", false)).1 = .panicked
      ∧ (processNextWith (.ok 10) specKeys cacheOfC counterQueue
            ⟨heapNeeds, [], fun _ => 0, []⟩ ("not-a-valid-key", false)).2.calls
          = [] ++ [.Done "not-a-valid-key"]
      ∧ (runWorkerWith (.ok 10) specKeys cacheOfC counterQueue
            ⟨heapNeeds, [], fun _ => 0, []⟩ (("not-a-valid-key", false) :: [])).1
          = .crashed :=
  process_key_without_separator_panics (.ok 10) specKeys cacheOfC counterQueue
    ⟨heapNeeds, [], fun _ => 0, []⟩ "not-a-valid-key" [] (by decide)

/-! ## The retry policy -/

/-- C6 (retry policy of `handleErr`). For every queue, queue state, key and error
value: with a nil error the only call is `Forget(key)`; with a non-nil error and
`NumRequeues(key) < 5` the key is re-added with `AddRateLimited(key)` and `Forget`
is not called; with a non-nil error and `NumRequeues(key) ≥ 5` the key is dropped
with `Forget(key)` and `AddRateLimited` is not called. Exactly one of the three
cases applies. -/
theorem handleErr_policy {σ : Type} (q : RateLimitingInterface σ) (s : σ)
    (err : Option GoError) (key : String) :
    (err = none → handleErr q s err key = (q.Forget s key, [.Forget key]))
      ∧ (err ≠ none → q.NumRequeues s key < 5 →
          handleErr q s err key
              = (q.AddRateLimited s key, [.NumRequeues key, .AddRateLimited key])
            ∧ ∀ x, QueueCall.Forget x ∉ (handleErr q s err key).2)
      ∧ (err ≠ none → 5 ≤ q.NumRequeues s key →
          handleErr q s err key = (q.Forget s key, [.NumRequeues key, .Forget key])
            ∧ ∀ x, QueueCall.AddRateLimited x ∉ (handleErr q s err key).2)
      ∧ (err = none ∨ (err ≠ none ∧ q.NumRequeues s key < 5)
          ∨ (err ≠ none ∧ 5 ≤ q.NumRequeues s key))
      ∧ ¬ (err = none ∧ err ≠ none ∧ q.NumRequeues s key < 5)
      ∧ ¬ (err = none ∧ err ≠ none ∧ 5 ≤ q.NumRequeues s key)
      ∧ ¬ ((err ≠ none ∧ q.NumRequeues s key < 5)
          ∧ err ≠ none ∧ 5 ≤ q.NumRequeues s key) := by
  refine ⟨?_, ?_, ?_, ?_, ?_, ?_, ?_⟩
  · rintro rfl
    rfl
  · intro he hlt
    cases err with
    | none => exact absurd rfl he
    | some e => simp [handleErr, hlt]
  · intro he hge
    cases err with
    | none => exact absurd rfl he
    | some e =>
      have hnlt : ¬ q.NumRequeues s key < 5 := not_lt.mpr hge
      simp [handleErr, hnlt]
  · cases err with
    | none => exact Or.inl rfl
    | some e =>
      rcases lt_or_le (q.NumRequeues s key) 5 with hlt | hge
      · exact Or.inr (Or.inl ⟨by simp, hlt⟩)
      · exact Or.inr (Or.inr ⟨by simp, hge⟩)
  · rintro ⟨h1, h2, _⟩
    exact h2 h1
  · rintro ⟨h1, h2, _⟩
    exact h2 h1
  · rintro ⟨⟨_, hlt⟩, _, hge⟩
    exact absurd hlt (not_lt.mpr hge)

/-- One failed attempt below the ceiling: the key is re-added and its counter goes
up by one. -/
theorem processNextWith_failure_retries (count : Except GoError Int) (k : Keys)
    (c : mongodbController) (w : World (String → Int)) (key : String)
    (hfail : ∃ e, (processWith count k c w.heap key).out = .returned (some e))
    (hlt : w.queue key < 5) :
    ∃ w1, processNextWith count k c counterQueue w (key, false) = (.returned true, w1)
      ∧ w1.queue key = w.queue key + 1
      ∧ w1.calls = w.calls ++ [.NumRequeues key, .AddRateLimited key, .Done key]
      ∧ w1.heap = (processWith count k c w.heap key).heap := by
  obtain ⟨e, he⟩ := hfail
  have hlt' : counterQueue.NumRequeues w.queue key < 5 := hlt
  have hstep : processNextWith count k c counterQueue w (key, false)
      = (.returned true,
          { heap := (processWith count k c w.heap key).heap,
            trace := w.trace ++ (processWith count k c w.heap key).trace,
            queue := counterQueue.Done (counterQueue.AddRateLimited w.queue key) key,
            calls := w.calls ++ [.NumRequeues key, .AddRateLimited key] ++ [.Done key] }) := by
    simp [processNextWith, he, handleErr, hlt']
  exact ⟨_, hstep, by simp [counterQueue], by simp, rfl⟩

/-- One failed attempt at the ceiling: the key is forgotten and its counter is
back at zero. -/
theorem processNextWith_failure_drops (count : Except GoError Int) (k : Keys)
    (c : mongodbController) (w : World (String → Int)) (key : String)
    (hfail : ∃ e, (processWith count k c w.heap key).out = .returned (some e))
    (hge : 5 ≤ w.queue key) :
    ∃ w1, processNextWith count k c counterQueue w (key, false) = (.returned true, w1)
      ∧ w1.queue key = 0
      ∧ w1.calls = w.calls ++ [.NumRequeues key, .Forget key, .Done key] := by
  obtain ⟨e, he⟩ := hfail
  have hnlt : ¬ counterQueue.NumRequeues w.queue key < 5 := not_lt.mpr hge
  have hstep : processNextWith count k c counterQueue w (key, false)
      = (.returned true,
          { heap := (processWith count k c w.heap key).heap,
            trace := w.trace ++ (processWith count k c w.heap key).trace,
            queue := counterQueue.Done (counterQueue.Forget w.queue key) key,
            calls := w.calls ++ [.NumRequeues key, .Forget key] ++ [.Done key] }) := by
    simp [processNextWith, he, handleErr, hnlt]
  exact ⟨_, hstep, by simp [counterQueue], by simp⟩

/-- As long as the counter stays within the ceiling, `j` deliveries of a key whose
first `j` attempts fail are `j` re-adds. -/
theorem runWorkerWith_failures (count : Except GoError Int) (k : Keys)
    (c : mongodbController) (key : String) (rest : List (String × Bool)) :
    ∀ (j : Nat) (w : World (String → Int)), w.queue key + j ≤ 5 →
      (∀ i, i < j → ∃ e,
        (processWith count k c (heapAtAttempt count k c key w.heap i) key).out
          = .returned (some e)) →
      ∃ w1, runWorkerWith count k c counterQueue w (List.replicate j (key, false) ++ rest)
          = runWorkerWith count k c counterQueue w1 rest
        ∧ w1.queue key = w.queue key + j
        ∧ w1.calls = w.calls ++ retryCalls key j
        ∧ w1.heap = heapAtAttempt count k c key w.heap j := by
  intro j
  induction j with
  | zero =>
    intro w _ _
    exact ⟨w, by simp, by simp, by simp [retryCalls], rfl⟩
  | succ j ih =>
    intro w hw hfail
    push_cast at hw
    obtain ⟨w1, hstep, hq, hc, hh⟩ :=
      processNextWith_failure_retries count k c w key (hfail 0 (Nat.succ_pos j)) (by omega)
    have hfail1 : ∀ i, i < j → ∃ e,
        (processWith count k c (heapAtAttempt count k c key w1.heap i) key).out
          = .returned (some e) := by
      intro i hi
      rw [hh]
      exact hfail (i + 1) (Nat.succ_lt_succ hi)
    obtain ⟨w2, hrun, hq2, hc2, hh2⟩ := ih w1 (by rw [hq]; omega) hfail1
    refine ⟨w2, ?_, ?_, ?_, ?_⟩
    · rw [← hrun]
      simp [List.replicate_succ, runWorkerWith, hstep]
    · rw [hq2, hq]; push_cast; ring
    · rw [hc2, hc]; simp [retryCalls]
    · rw [hh2, hh]
      rfl

/-- C7 (retry exhaustion). On a queue whose retry record is a counter per key
(`AddRateLimited` adds one, `Forget` resets to zero), take a key whose counter is 0
and whose `process` call fails on every attempt, for whatever reason (a failed
lookup, a refused budget, a failed copy or a failed `Update`): each of the first
six attempts, run on the heap the attempt before it left, returns a non-nil
error. Then each of the first five deliveries ends with `AddRateLimited`, the
counter counting them; the sixth failure calls `Forget` and not `AddRateLimited`,
so that after six deliveries the key was re-added exactly five times, its counter
is 0 again and the worker waits for new keys. -/
theorem retry_exhaustion (count : Except GoError Int) (k : Keys) (c : mongodbController)
    (w : World (String → Int)) (key : String)
    (hzero : w.queue key = 0)
    (hfail : ∀ i, i < 6 → ∃ e,
      (processWith count k c (heapAtAttempt count k c key w.heap i) key).out
        = .returned (some e)) :
    (∀ j : Nat, j ≤ 5 →
        (runWorkerWith count k c counterQueue w (List.replicate j (key, false))).2.queue key = j
          ∧ (runWorkerWith count k c counterQueue w (List.replicate j (key, false))).2.calls
            = w.calls ++ retryCalls key j)
      ∧ (runWorkerWith count k c counterQueue w (List.replicate 6 (key, false))).1 = .waiting
      ∧ (runWorkerWith count k c counterQueue w (List.replicate 6 (key, false))).2.calls
          = w.calls ++ retryCalls key 5 ++ [.NumRequeues key, .Forget key, .Done key]
      ∧ List.count (QueueCall.AddRateLimited key)
          (retryCalls key 5 ++ [.NumRequeues key, .Forget key, .Done key]) = 5
      ∧ (runWorkerWith count k c counterQueue w (List.replicate 6 (key, false))).2.queue key
          = 0 := by
  refine ⟨?_, ?_⟩
  · intro j hj
    obtain ⟨w1, hrun, hq, hc, _⟩ :=
      runWorkerWith_failures count k c key [] j w (by rw [hzero]; omega)
        (fun i hi => hfail i (by omega))
    simp only [List.append_nil] at hrun
    rw [hrun]
    simp [runWorkerWith, hq, hc, hzero]
  · obtain ⟨w1, hrun, hq, hc, hh⟩ :=
      runWorkerWith_failures count k c key [(key, false)] 5 w (by rw [hzero]; simp)
        (fun i hi => hfail i (by omega))
    obtain ⟨w2, hstep, hq2, hc2⟩ :=
      processNextWith_failure_drops count k c w1 key
        (by rw [hh]; exact hfail 5 (by decide)) (by rw [hq, hzero]; simp)
    have hsix : List.replicate 6 (key, false)
        = List.replicate 5 (key, false) ++ [(key, false)] := by
      simp [List.replicate]
    rw [hsix, hrun]
    simp [runWorkerWith, hstep, hq2, hc2, hc, retryCalls]

/-- With the count of the program, every attempt on pod `C` that needs maintenance
is refused by the budget, and leaves the heap as it was. -/
theorem attempts_fail_by_budget (i : Nat) :
    heapAtAttempt (.ok 10) specKeys cacheOfC "default/C" heapNeeds i = heapNeeds
      ∧ (processWith (.ok 10) specKeys cacheOfC
            (heapAtAttempt (.ok 10) specKeys cacheOfC "default/C" heapNeeds i)
            "default/C").out
          = .returned (some (.tooManyUnavailable 10 1 "C")) := by
  have hheap : heapAtAttempt (.ok 10) specKeys cacheOfC "default/C" heapNeeds i
      = heapNeeds := by
    induction i with
    | zero => rfl
    | succ i ih =>
      have hstep : (processWith (.ok 10) specKeys cacheOfC heapNeeds "default/C").heap
          = heapNeeds := by decide
      show heapAtAttempt (.ok 10) specKeys cacheOfC "default/C"
          (processWith (.ok 10) specKeys cacheOfC heapNeeds "default/C").heap i = heapNeeds
      rw [hstep]
      exact ih
  refine ⟨hheap, ?_⟩
  rw [hheap]
  decide

/-- With a free budget and an API server that refuses every `Update`, each of the
first six attempts on pod `C` fails with the error of the `Update` call, each on
a heap that holds one more copy of the pod. -/
theorem attempts_fail_by_update (i : Nat) (hi : i < 6) :
    (processWith (.ok 0) specKeys cacheOfCRefusingUpdate
          (heapAtAttempt (.ok 0) specKeys cacheOfCRefusingUpdate "default/C" heapNeeds i)
          "default/C").out
        = .returned (some (.failedToSet "maintenance-approved" (.external "conflict")))
      ∧ (heapAtAttempt (.ok 0) specKeys cacheOfCRefusingUpdate "default/C" heapNeeds
          i).pods.length = i + 1 := by
  interval_cases i <;> decide

/-- Witness of C7: pod `C` needs maintenance and the program, as it stands, counts
10 unavailable units; its key is delivered six times and refused by the budget
each time. -/
theorem retry_exhaustion_witness :
    (∀ j : Nat, j ≤ 5 →
        (runWorkerWith (.ok 10) specKeys cacheOfC counterQueue worldNeeds
            (List.replicate j ("default/C", false))).2.queue "default/C" = j
          ∧ (runWorkerWith (.ok 10) specKeys cacheOfC counterQueue worldNeeds
              (List.replicate j ("default/C", false))).2.calls
            = worldNeeds.calls ++ retryCalls "default/C" j)
      ∧ (runWorkerWith (.ok 10) specKeys cacheOfC counterQueue worldNeeds
          (List.replicate 6 ("default/C", false))).1 = .waiting
      ∧ (runWorkerWith (.ok 10) specKeys cacheOfC counterQueue worldNeeds
          (List.replicate 6 ("default/C", false))).2.calls
          = worldNeeds.calls ++ retryCalls "default/C" 5
            ++ [.NumRequeues "default/C", .Forget "default/C", .Done "default/C"]
      ∧ List.count (QueueCall.AddRateLimited "default/C")
          (retryCalls "default/C" 5
            ++ [.NumRequeues "default/C", .Forget "default/C", .Done "default/C"]) = 5
      ∧ (runWorkerWith (.ok 10) specKeys cacheOfC counterQueue worldNeeds
          (List.replicate 6 ("default/C", false))).2.queue "default/C" = 0 :=
  retry_exhaustion (.ok 10) specKeys cacheOfC worldNeeds "default/C" rfl
    (fun i _ => ⟨_, (attempts_fail_by_budget i).2⟩)

/-! ## The approval path -/

theorem Heap.object_of_map (h : Heap) (p m : Nat) (pod : Pod) (annotations : GoMap)
    (hpod : h.pods[p]? = some pod) (hann : pod.Annotations = some m)
    (hmap : h.maps[m]? = some annotations) :
    h.object p = some ⟨pod.Name, pod.Namespace, some annotations⟩ := by
  simp [Heap.object, hpod, hann, hmap]

/-- The call `CopyObjToNode` on a pod with a map: a fresh pod with a fresh map of the same
contents. -/
theorem CopyObjToNode_of_map (c : mongodbController) (h : Heap) (p m : Nat) (pod : Pod)
    (annotations : GoMap)
    (hpod : h.pods[p]? = some pod) (hann : pod.Annotations = some m)
    (hmap : h.maps[m]? = some annotations)
    (hcopy : c.schemeCopy ⟨pod.Name, pod.Namespace, some annotations⟩ = none) :
    CopyObjToNode c h p
      = (.returned (.ok h.pods.length),
          { pods := h.pods ++ [{ pod with Annotations := some h.maps.length }],
            maps := h.maps ++ [annotations] }) := by
  have hobj := Heap.object_of_map h p m pod annotations hpod hann hmap
  simp [CopyObjToNode, SchemeCopy, hpod, hobj, hcopy]

/-- The run of `process` on the approval path. -/
theorem processWith_approval_run (k : Keys) (c : mongodbController) (h : Heap)
    (key podName : String) (p m : Nat) (pod : Pod) (annotations : GoMap) (v : String)
    (u : Int)
    (hkey : (Split key '/')[1]? = some podName)
    (hget : c.podLister "default" podName = .ok p)
    (hpod : h.pods[p]? = some pod)
    (hann : pod.Annotations = some m)
    (hmap : h.maps[m]? = some annotations)
    (hneeded : annotations.get k.RebootNeededAnnotation = some v)
    (hu : u < maxUnavailable)
    (hcopy : c.schemeCopy ⟨pod.Name, pod.Namespace, some annotations⟩ = none) :
    processWith (.ok u) k c h key
      = ⟨.returned
            ((c.Update "default"
                ⟨pod.Name, pod.Namespace, some (annotations.set k.RebootAnnotation "")⟩).map
              (GoError.failedToSet k.RebootAnnotation)),
          approvedHeap k h pod annotations,
          [.Get "default" podName, .unavailableNodeCount,
            .Update "default"
              ⟨pod.Name, pod.Namespace, some (annotations.set k.RebootAnnotation "")⟩]⟩ := by
  have hnu : ¬ u ≥ maxUnavailable := not_le.mpr hu
  have hcp := CopyObjToNode_of_map c h p m pod annotations hpod hann hmap hcopy
  simp only [processWith, Split_ne_nil, hkey, hget, hpod, hann, hmap, hneeded, hnu, hcp]
  simp [Heap.object, approvedHeap, Split_ne_nil]
  cases hup : c.Update "default"
      ⟨pod.Name, pod.Namespace, some (annotations.set k.RebootAnnotation "")⟩ <;> simp

/-- Whenever `CopyObjToNode` returns a pod, the annotation map of that pod is not
nil. -/
theorem CopyObjToNode_map_not_nil (c : mongodbController) (h : Heap) (obj q : Nat)
    (h1 : Heap) (hret : CopyObjToNode c h obj = (.returned (.ok q), h1)) :
    ∃ o am, h1.object q = some o ∧ o.Annotations = some am := by
  unfold CopyObjToNode SchemeCopy at hret
  cases hp : h.pods[obj]? with
  | none => simp [hp] at hret
  | some pod =>
    cases ho : h.object obj with
    | none => simp [hp, ho] at hret
    | some o =>
      cases hc : c.schemeCopy o with
      | some err => simp [hp, ho, hc] at hret
      | none =>
        cases hm : pod.Annotations with
        | none =>
          have hoa : o.Annotations = none := by
            simp [Heap.object, hp, hm] at ho
            rw [← ho]
          simp [hp, ho, hc, hoa, hm] at hret
          obtain ⟨rfl, rfl⟩ := hret
          exact ⟨⟨pod.Name, pod.Namespace, some []⟩, [], by simp [Heap.object], rfl⟩
        | some m =>
          cases hmm : h.maps[m]? with
          | none => simp [Heap.object, hp, hm, hmm] at ho
          | some contents =>
            have hoa : o.Annotations = some contents := by
              simp [Heap.object, hp, hm, hmm] at ho
              rw [← ho]
            simp [hp, ho, hc, hoa] at hret
            obtain ⟨rfl, rfl⟩ := hret
            exact ⟨⟨pod.Name, pod.Namespace, some contents⟩, contents,
              by simp [Heap.object], rfl⟩

/-- C8 (approval writes a modified copy). On the approval path of `process` (the
cached pod carries needs-maintenance, the count `u` is below `maxUnavailable`, the
copy is made) the one object passed to `Update` has the name and namespace of the
cached pod and an annotation map that answers `""` for the maintenance-approved
key and, for every other key, what the cached map answers. The cached pod and its
map are as they were, and so is every object that was on the heap before. Last,
whenever `CopyObjToNode` returns a pod its annotation map is not nil. -/
theorem process_approval_writes_copy (k : Keys) (c : mongodbController) (h : Heap)
    (key podName : String) (p m : Nat) (pod : Pod) (annotations : GoMap) (v : String)
    (u : Int)
    (hkey : (Split key '/')[1]? = some podName)
    (hget : c.podLister "default" podName = .ok p)
    (hpod : h.pods[p]? = some pod)
    (hann : pod.Annotations = some m)
    (hmap : h.maps[m]? = some annotations)
    (hneeded : annotations.get k.RebootNeededAnnotation = some v)
    (hu : u < maxUnavailable)
    (hcopy : c.schemeCopy ⟨pod.Name, pod.Namespace, some annotations⟩ = none) :
    (∃ written : GoMap,
        (processWith (.ok u) k c h key).trace
            = [.Get "default" podName, .unavailableNodeCount,
                .Update "default" ⟨pod.Name, pod.Namespace, some written⟩]
          ∧ ∀ x, written.get x
              = if x = k.RebootAnnotation then some "" else annotations.get x)
      ∧ (processWith (.ok u) k c h key).heap.pods[p]? = some pod
      ∧ (processWith (.ok u) k c h key).heap.maps[m]? = some annotations
      ∧ (processWith (.ok u) k c h key).heap.object p = h.object p
      ∧ (∀ i, i < h.pods.length →
          (processWith (.ok u) k c h key).heap.pods[i]? = h.pods[i]?)
      ∧ (∀ i, i < h.maps.length →
          (processWith (.ok u) k c h key).heap.maps[i]? = h.maps[i]?)
      ∧ (∀ (c1 : mongodbController) (h0 : Heap) (obj q : Nat) (h1 : Heap),
          CopyObjToNode c1 h0 obj = (.returned (.ok q), h1) →
            ∃ o am, h1.object q = some o ∧ o.Annotations = some am) := by
  have hrun := processWith_approval_run k c h key podName p m pod annotations v u
    hkey hget hpod hann hmap hneeded hu hcopy
  have hp : p < h.pods.length := by
    rcases Nat.lt_or_ge p h.pods.length with hlt | hge
    · exact hlt
    · rw [List.getElem?_eq_none hge] at hpod
      cases hpod
  have hm : m < h.maps.length := by
    rcases Nat.lt_or_ge m h.maps.length with hlt | hge
    · exact hlt
    · rw [List.getElem?_eq_none hge] at hmap
      cases hmap
  have hpods : ∀ i, i < h.pods.length →
      (approvedHeap k h pod annotations).pods[i]? = h.pods[i]? := by
    intro i hi
    simp [approvedHeap, List.getElem?_append_left hi]
  have hmaps : ∀ i, i < h.maps.length →
      (approvedHeap k h pod annotations).maps[i]? = h.maps[i]? := by
    intro i hi
    simp [approvedHeap, List.getElem?_append_left hi]
  rw [hrun]
  refine ⟨⟨annotations.set k.RebootAnnotation "", rfl, ?_⟩, ?_, ?_, ?_, hpods, hmaps, ?_⟩
  · intro x
    exact GoMap.get_set annotations k.RebootAnnotation "" x
  · show (approvedHeap k h pod annotations).pods[p]? = some pod
    rw [hpods p hp, hpod]
  · show (approvedHeap k h pod annotations).maps[m]? = some annotations
    rw [hmaps m hm, hmap]
  · show (approvedHeap k h pod annotations).object p = h.object p
    simp only [Heap.object]
    rw [hpods p hp, hpod]
    simp only [hann]
    rw [hmaps m hm, hmap]
  · intro c1 h0 obj q h1 hret
    exact CopyObjToNode_map_not_nil c1 h0 obj q h1 hret

/-- Witness of C8: pod `C` needs maintenance and no unit is unavailable. -/
theorem process_approval_writes_copy_witness :
    (∃ written : GoMap,
        (processWith (.ok 0) specKeys cacheOfC heapNeeds "default/C").trace
            = [.Get "default" "C", .unavailableNodeCount,
                .Update "default" ⟨"C", "default", some written⟩]
          ∧ ∀ x, written.get x
              = if x = "maintenance-approved" then some ""
                else GoMap.get [("needs-maintenance", "")] x)
      ∧ (processWith (.ok 0) specKeys cacheOfC heapNeeds "default/C").heap.pods[0]?
          = some ⟨"C", "default", some 0⟩
      ∧ (processWith (.ok 0) specKeys cacheOfC heapNeeds "default/C").heap.maps[0]?
          = some [("needs-maintenance", "")]
      ∧ (processWith (.ok 0) specKeys cacheOfC heapNeeds "default/C").heap.object 0
          = heapNeeds.object 0
      ∧ (∀ i, i < heapNeeds.pods.length →
          (processWith (.ok 0) specKeys cacheOfC heapNeeds "default/C").heap.pods[i]?
            = heapNeeds.pods[i]?)
      ∧ (∀ i, i < heapNeeds.maps.length →
          (processWith (.ok 0) specKeys cacheOfC heapNeeds "default/C").heap.maps[i]?
            = heapNeeds.maps[i]?)
      ∧ (∀ (c1 : mongodbController) (h0 : Heap) (obj q : Nat) (h1 : Heap),
          CopyObjToNode c1 h0 obj = (.returned (.ok q), h1) →
            ∃ o am, h1.object q = some o ∧ o.Annotations = some am) :=
  process_approval_writes_copy specKeys cacheOfC heapNeeds "default/C" "C" 0 0
    ⟨"C", "default", some 0⟩ [("needs-maintenance", "")] "" 0
    (by decide) rfl (by decide) rfl (by decide) (by decide) (by decide) rfl

/-- C9 (idempotence of approval), as the code has it. For every cached pod that
carries maintenance-approved in addition to needs-maintenance: with a count
`u ≥ maxUnavailable` `process` makes no `Update` call; with `u < maxUnavailable`
(and the copy made) it makes one `Update` call again, writing the annotations of
the cached pod with the maintenance-approved key set to `""`. The approved marker
is not looked at. -/
theorem process_on_approved_unit (k : Keys) (c : mongodbController) (h : Heap)
    (key podName : String) (p m : Nat) (pod : Pod) (annotations : GoMap) (v a : String)
    (u : Int)
    (hkey : (Split key '/')[1]? = some podName)
    (hget : c.podLister "default" podName = .ok p)
    (hpod : h.pods[p]? = some pod)
    (hann : pod.Annotations = some m)
    (hmap : h.maps[m]? = some annotations)
    (hneeded : annotations.get k.RebootNeededAnnotation = some v)
    (_happroved : annotations.get k.RebootAnnotation = some a) :
    (u ≥ maxUnavailable →
        ∀ ns obj, Event.Update ns obj ∉ (processWith (.ok u) k c h key).trace)
      ∧ (u < maxUnavailable →
          c.schemeCopy ⟨pod.Name, pod.Namespace, some annotations⟩ = none →
          ∃ written : GoMap,
            (processWith (.ok u) k c h key).trace
                = [.Get "default" podName, .unavailableNodeCount,
                    .Update "default" ⟨pod.Name, pod.Namespace, some written⟩]
              ∧ ∀ x, written.get x
                  = if x = k.RebootAnnotation then some "" else annotations.get x) := by
  constructor
  · intro hu
    have hrun : processWith (.ok u) k c h key
        = ⟨.returned (some (.tooManyUnavailable u maxUnavailable pod.Name)), h,
            [.Get "default" podName, .unavailableNodeCount]⟩ := by
      simp [processWith, Split_ne_nil, hkey, hget, hpod, hann, hmap, hneeded, hu]
    rw [hrun]
    simp
  · intro hu hcopy
    have hrun := processWith_approval_run k c h key podName p m pod annotations v u
      hkey hget hpod hann hmap hneeded hu hcopy
    rw [hrun]
    exact ⟨annotations.set k.RebootAnnotation "", rfl,
      fun x => GoMap.get_set annotations k.RebootAnnotation "" x⟩

/-- Witness of C9 as amended: pod `C` as a first approval wrote it, and no unit
counted as unavailable. -/
theorem process_on_approved_unit_witness :
    ((0 : Int) ≥ maxUnavailable →
        ∀ ns obj, Event.Update ns obj
          ∉ (processWith (.ok 0) specKeys cacheOfC heapApproved "default/C").trace)
      ∧ ((0 : Int) < maxUnavailable →
          cacheOfC.schemeCopy ⟨"C", "default",
              some [("maintenance-approved", ""), ("needs-maintenance", "")]⟩ = none →
          ∃ written : GoMap,
            (processWith (.ok 0) specKeys cacheOfC heapApproved "default/C").trace
                = [.Get "default" "C", .unavailableNodeCount,
                    .Update "default" ⟨"C", "default", some written⟩]
              ∧ ∀ x, written.get x
                  = if x = "maintenance-approved" then some ""
                    else GoMap.get
                      [("maintenance-approved", ""), ("needs-maintenance", "")] x) :=
  process_on_approved_unit specKeys cacheOfC heapApproved "default/C" "C" 0 0
    ⟨"C", "default", some 0⟩ [("maintenance-approved", ""), ("needs-maintenance", "")]
    "" "" 0 (by decide) rfl (by decide) rfl (by decide) (by decide) (by decide)

/-- Counterexample to C9 as stated: pod `C` already carries maintenance-approved
(it is the pod a first approval wrote) and the count is 0; `process` makes an
`Update` call all the same. -/
theorem process_reapproves_approved_unit :
    GoMap.get [("maintenance-approved", ""), ("needs-maintenance", "")]
        specKeys.RebootAnnotation = some ""
      ∧ (processWith (.ok 0) specKeys cacheOfC heapNeeds "default/C").trace
        = [.Get "default" "C", .unavailableNodeCount,
            .Update "default" ⟨"C", "default",
              some [("maintenance-approved", ""), ("needs-maintenance", "")]⟩]
      ∧ heapApproved
        = ⟨[⟨"C", "default", some 0⟩],
            [[("maintenance-approved", ""), ("needs-maintenance", "")]]⟩
      ∧ (processWith (.ok 0) specKeys cacheOfC heapApproved "default/C").trace
        = [.Get "default" "C", .unavailableNodeCount,
            .Update "default" ⟨"C", "default",
              some [("maintenance-approved", ""), ("needs-maintenance", "")]⟩]
      ∧ ¬ (∀ ns obj, Event.Update ns obj
          ∉ (processWith (.ok 0) specKeys cacheOfC heapApproved "default/C").trace) := by
  refine ⟨by decide, by decide, by decide, by decide, ?_⟩
  intro hno
  exact hno "default" ⟨"C", "default",
    some [("maintenance-approved", ""), ("needs-maintenance", "")]⟩ (by decide)

/-! ## Key resolution -/

/-- Every list starts with a separator-free piece that ends at the end of the list
or right before a separator. -/
theorem exists_first_piece (sep : Char) (l : List Char) :
    ∃ n rest, l = n ++ rest ∧ sep ∉ n ∧ (rest = [] ∨ ∃ r, rest = sep :: r) := by
  induction l with
  | nil => exact ⟨[], [], rfl, by simp, Or.inl rfl⟩
  | cons x xs ih =>
    by_cases hx : x = sep
    · exact ⟨[], x :: xs, rfl, by simp, Or.inr ⟨xs, by rw [hx]⟩⟩
    · obtain ⟨n, rest, hl, hn, hrest⟩ := ih
      refine ⟨x :: n, rest, by rw [hl]; rfl, ?_, hrest⟩
      intro hmem
      rcases List.mem_cons.mp hmem with he | hin
      · exact hx he.symm
      · exact hn hin

/-- A list with a separator is `a/n` or `a/n/...`. -/
theorem exists_second_piece (sep : Char) (l : List Char) (hl : sep ∈ l) :
    ∃ a n rest, l = a ++ sep :: (n ++ rest) ∧ sep ∉ a ∧ sep ∉ n
      ∧ (rest = [] ∨ ∃ r, rest = sep :: r) := by
  obtain ⟨a, tail, hAt, ha, htail⟩ := exists_first_piece sep l
  rcases htail with rfl | ⟨r, rfl⟩
  · rw [List.append_nil] at hAt
    exact absurd (hAt ▸ hl) ha
  · obtain ⟨n, rest, hr, hn, hrest⟩ := exists_first_piece sep r
    exact ⟨a, n, rest, by rw [hAt, hr], ha, hn, hrest⟩

/-- The run of `process` depends on the key through `result[1]` only. -/
theorem processWith_congr_key (count : Except GoError Int) (k : Keys)
    (c : mongodbController) (h : Heap) (key1 key2 podName : String)
    (h1 : (Split key1 '/')[1]? = some podName) (h2 : (Split key2 '/')[1]? = some podName) :
    processWith count k c h key1 = processWith count k c h key2 := by
  simp only [processWith, Split_length_ne_zero, h1, h2, if_false]

/-- The run of `process` depends on the lister through the lookup of `result[1]` in
the namespace `default` only. -/
theorem processWith_congr_lister (count : Except GoError Int) (k : Keys)
    (c c1 : mongodbController) (h : Heap) (key podName : String)
    (hkey : (Split key '/')[1]? = some podName)
    (hget : c1.podLister "default" podName = c.podLister "default" podName)
    (hupdate : c1.Update = c.Update) (hcopy : c1.schemeCopy = c.schemeCopy) :
    processWith count k c1 h key = processWith count k c h key := by
  simp only [processWith, CopyObjToNode, SchemeCopy, Split_length_ne_zero, hkey, hget,
    hupdate, hcopy, if_false]

/-- The first call of `process` on a key with a second piece is the lookup of that
piece in the namespace `default`, and there is no other lookup. -/
theorem processWith_trace_lookup (count : Except GoError Int) (k : Keys)
    (c : mongodbController) (h : Heap) (key podName : String)
    (hkey : (Split key '/')[1]? = some podName) :
    ∃ t, (processWith count k c h key).trace = .Get "default" podName :: t
      ∧ ∀ ns name, Event.Get ns name ∉ t := by
  simp only [processWith, Split_length_ne_zero, hkey, if_false]
  repeat' split
  all_goals simp

/-- C10 (key resolution). Every key with at least one `/` reads `a/n` or `a/n/...`
with no `/` in `a` and `n`, and `process` resolves it through `n` alone, the text
between the first and the second `/`: `result[1]` is `n`, the first call is the
lookup of `n` in the namespace `default` and no other lookup follows, the run is
the same for every lister that answers that one lookup alike, and it is the same
run (result, heap and calls, hence writes) for every key whose second piece is
`n`. -/
theorem process_key_resolution (count : Except GoError Int) (k : Keys)
    (c : mongodbController) (h : Heap) (key : String) (hkey : '/' ∈ key.data) :
    ∃ a n rest, key.data = a ++ '/' :: (n ++ rest) ∧ '/' ∉ a ∧ '/' ∉ n
      ∧ (rest = [] ∨ ∃ r, rest = '/' :: r)
      ∧ (Split key '/')[1]? = some (String.mk n)
      ∧ (∃ t, (processWith count k c h key).trace = .Get "default" (String.mk n) :: t
          ∧ ∀ ns name, Event.Get ns name ∉ t)
      ∧ (∀ c1 : mongodbController,
          c1.podLister "default" (String.mk n) = c.podLister "default" (String.mk n) →
          c1.Update = c.Update → c1.schemeCopy = c.schemeCopy →
          processWith count k c1 h key = processWith count k c h key)
      ∧ (∀ key1 : String, (Split key1 '/')[1]? = some (String.mk n) →
          processWith count k c h key1 = processWith count k c h key) := by
  obtain ⟨a, n, rest, hdata, ha, hn, hrest⟩ := exists_second_piece '/' key.data hkey
  have hsec : (Split key '/')[1]? = some (String.mk n) := by
    have hk : key = String.mk (a ++ '/' :: (n ++ rest)) := by
      rw [← hdata]
    rw [hk]
    exact Split_second '/' a n rest ha hn hrest
  exact ⟨a, n, rest, hdata, ha, hn, hrest, hsec,
    processWith_trace_lookup count k c h key (String.mk n) hsec,
    fun c1 hget hupdate hcopy =>
      processWith_congr_lister count k c c1 h key (String.mk n) hsec hget hupdate hcopy,
    fun key1 h1 => processWith_congr_key count k c h key1 key (String.mk n) h1 hsec⟩

/-- Witness of C10: the keys `other/C` and `x/C/bar` run as `default/C` does, and
the first call of that run is the lookup of `C` in `default`. -/
theorem process_key_resolution_witness :
    '/' ∈ "default/C".data
      ∧ processWith (.ok 0) specKeys cacheOfC heapNeeds "other/C"
        = processWith (.ok 0) specKeys cacheOfC heapNeeds "default/C"
      ∧ processWith (.ok 0) specKeys cacheOfC heapNeeds "x/C/bar"
        = processWith (.ok 0) specKeys cacheOfC heapNeeds "default/C"
      ∧ ∃ t, (processWith (.ok 0) specKeys cacheOfC heapNeeds "default/C").trace
          = .Get "default" "C" :: t ∧ ∀ ns name, Event.Get ns name ∉ t := by
  obtain ⟨a, n, rest, _, _, _, _, hsec, htrace, _, hsame⟩ :=
    process_key_resolution (.ok 0) specKeys cacheOfC heapNeeds "default/C" (by decide)
  have hn : String.mk n = "C" := by
    have hC : (Split "default/C" '/')[1]? = some "C" := by decide
    rw [hC] at hsec
    exact (Option.some.inj hsec).symm
  rw [hn] at htrace hsame
  exact ⟨by decide, hsame "other/C" (by decide), hsame "x/C/bar" (by decide), htrace⟩

end MongodbController
